import Mathlib

/-!
# Verification of the conference-watch script

Shallow embedding of `scripts/check_conferences.py`: the heuristic line
extractor, the deduplicator / id assigner, the snapshot store, the differ
and the report builder, together with theorems settling the specification
claims.  Python strings are modelled as Lean `String`s with ASCII-scoped
versions of `str.lower`, `str.strip`, the `in` substring test and the
`\w` / `\s` character classes of the `re` module.  Network and file I/O
are abstracted: the extractor takes the normalized text lines as input,
the snapshot store takes an explicit file state, and `json.load` /
`json.dump` are modelled at the level of JSON values.
-/

namespace PgconfWatch

/-- ASCII model of Python's `\w` regex class: letters, digits, underscore. -/
def wordChar (c : Char) : Bool := c.isAlphanum || c = '_'

/-- ASCII model of Python's `\s` regex class and `str.strip` whitespace. -/
def pySpace (c : Char) : Bool :=
  c = ' ' || c = '\t' || c = '\n' || c = '\r' || c = Char.ofNat 11 || c = Char.ofNat 12

/-- Model of Python `str.lower` (ASCII range). -/
def pyLower (s : String) : String := ⟨s.data.map Char.toLower⟩

/-- Strip `pySpace` characters from both ends of a character list. -/
def pyStripList (l : List Char) : List Char :=
  ((l.dropWhile pySpace).reverse.dropWhile pySpace).reverse

/-- Model of Python `str.strip()`. -/
def pyStrip (s : String) : String := ⟨pyStripList s.data⟩

/-- `needle` occurs at the head of the list. -/
def headMatches : List Char → List Char → Bool
  | [], _ => true
  | _ :: _, [] => false
  | a :: as, b :: bs => a == b && headMatches as bs

/-- `needle` occurs somewhere in `hay` (list form). -/
def containsSubAux (needle : List Char) : List Char → Bool
  | [] => needle.isEmpty
  | c :: rest => headMatches needle (c :: rest) || containsSubAux needle rest

/-- Model of Python's substring test `needle in hay`. -/
def strContains (hay needle : String) : Bool := containsSubAux needle.data hay.data

/-- `any(w in lower for w in words)` as used throughout the script. -/
def containsAny (lower : String) (words : List String) : Bool :=
  words.any (fun w => strContains lower w)

/-- Lines skipped as navigation noise (`check_conferences.py` line 38). -/
def skipWords : List String := ["navigation", "search", "menu", "header"]

/-- Conference trigger vocabulary (`check_conferences.py` line 42). -/
def triggerWords : List String := ["pgconf", "pgday", "postgresql conference", "nordic pgday"]

/-- Location keywords (`check_conferences.py` line 62). -/
def locationWords : List String := ["location:", "hotel", "city", "country"]

/-- Status keywords (`check_conferences.py` line 65). -/
def statusWords : List String := ["call for papers", "registration", "schedule", "published"]

/-- The month alternation of the regex at `check_conferences.py` line 59. -/
def monthNames : List String :=
  ["january", "february", "march", "april", "may", "june", "july",
   "august", "september", "october", "november", "december"]

/-- Scan for a month name preceded by a word boundary.  `atBoundary` records
whether the current position follows the start of the string or a non-word
character; every month name starts with a letter, so `\b` holds exactly
there.  The input is the lowercased line, matching `re.I`. -/
def monthScan : Bool → List Char → Bool
  | _, [] => false
  | atBoundary, c :: rest =>
    (atBoundary && monthNames.any (fun m => headMatches m.data (c :: rest)))
      || monthScan (!wordChar c) rest

/-- Model of `re.search(r'\b(january|...|december)', line, re.I)` applied to
the lowercased line. -/
def monthSearch (lower : String) : Bool := monthScan true lower.data

/-- A conference record as built by the extractor, before an id is
assigned (the dict literal at `check_conferences.py` lines 46-52). -/
structure RawConf where
  name : String
  details : List String
  parsed_date : Option String
  location : Option String
  status : Option String
deriving Repr, DecidableEq

/-- The mutable scan state of `fetch_conferences`: `current` models the
`current_conference` dict (`none` for the empty dict `{}`), `inSection`
models `in_conference_section`, `out` the `conferences` list. -/
structure ExtractState where
  current : Option RawConf
  inSection : Bool
  out : List RawConf
deriving Repr, DecidableEq

/-- Append `current` to the output if it is a non-empty dict
(`if current_conference: conferences.append(...)`). -/
def emitCurrent (st : ExtractState) : List RawConf :=
  match st.current with
  | some c => st.out ++ [c]
  | none => st.out

/-- One iteration of the `for i, line in enumerate(lines)` loop of
`fetch_conferences` (`check_conferences.py` lines 36-73). -/
def processLine (st : ExtractState) (line : String) : ExtractState :=
  let lower := pyLower line
  if containsAny lower skipWords then
    st
  else if containsAny lower triggerWords then
    { current := some { name := pyStrip line, details := [],
                        parsed_date := none, location := none, status := none },
      inSection := true,
      out := emitCurrent st }
  else if st.inSection && line ≠ "" then
    match st.current with
    | some c =>
      let c := { c with details := c.details ++ [line] }
      let c := if monthSearch lower then { c with parsed_date := some line } else c
      let c := if containsAny lower locationWords then { c with location := some line } else c
      let c := if containsAny lower statusWords then { c with status := some line } else c
      { st with current := some c }
    | none => st
  else if st.inSection && line = "" then
    { current := none, inSection := false, out := emitCurrent st }
  else
    st

/-- The full extraction pass of `fetch_conferences` over the normalized
lines, including the trailing `if current_conference: conferences.append`
(`check_conferences.py` lines 33-77). -/
def extractConferences (lines : List String) : List RawConf :=
  emitCurrent (lines.foldl processLine ⟨none, false, []⟩)

/-- A record after deduplication, with the id slug populated. -/
structure Conference where
  name : String
  details : List String
  parsed_date : Option String
  location : Option String
  status : Option String
  id : String
deriving Repr, DecidableEq

/-- The id slug of `check_conferences.py` line 86:
`re.sub(r'[^\w\s-]', '', name).strip().replace(' ', '_').lower()`. -/
def makeId (name : String) : String :=
  ⟨((pyStripList (name.data.filter (fun c => wordChar c || pySpace c || c = '-'))).map
      (fun c => if c = ' ' then '_' else c)).map Char.toLower⟩

/-- The dedup loop of `check_conferences.py` lines 80-90: keep a record if
its name is truthy and not yet seen, assign the id, remember the name. -/
def cleanConferences : List RawConf → List String → List Conference
  | [], _ => []
  | r :: rest, seen =>
    if r.name ≠ "" ∧ r.name ∉ seen then
      { name := r.name, details := r.details, parsed_date := r.parsed_date,
        location := r.location, status := r.status, id := makeId r.name }
        :: cleanConferences rest (r.name :: seen)
    else
      cleanConferences rest seen

/-- `fetch_conferences` with the HTTP fetch and HTML-to-lines
normalization abstracted away: extraction followed by deduplication. -/
def fetch_conferences (lines : List String) : List Conference :=
  cleanConferences (extractConferences lines) []

/-! ## Snapshot store -/

/-- JSON values, the content model of the snapshot file (the text
encoding and decoding done by Python's `json` module is abstracted). -/
inductive JValue where
  | null
  | bool (b : Bool)
  | num (n : Int)
  | str (s : String)
  | arr (xs : List JValue)
  | obj (fields : List (String × JValue))
deriving Repr

/-- An optional string as serialized by `json.dump` (`None` becomes `null`). -/
def optStr : Option String → JValue
  | none => JValue.null
  | some s => JValue.str s

/-- The JSON object `json.dump` writes for one record: the dict of
`check_conferences.py` lines 46-52 with `id` inserted last (line 86). -/
def conferenceToJson (c : Conference) : JValue :=
  JValue.obj [("name", JValue.str c.name),
              ("details", JValue.arr (c.details.map JValue.str)),
              ("parsed_date", optStr c.parsed_date),
              ("location", optStr c.location),
              ("status", optStr c.status),
              ("id", JValue.str c.id)]

/-- `save_current_data` (`check_conferences.py` lines 106-113): the JSON
document written to the file is the array of record objects. -/
def save_current_data (conferences : List Conference) : JValue :=
  JValue.arr (conferences.map conferenceToJson)

/-- The state of the snapshot file as `load_previous_data` sees it:
absent, present but failing `json.load` (a `JSONDecodeError` or
`IOError`), or present with a decoded JSON document. -/
inductive FileState where
  | missing
  | invalid
  | content (j : JValue)
deriving Repr

/-- `load_previous_data` (`check_conferences.py` lines 93-103): an empty
list when the file is missing, an empty list when `json.load` raises, and
otherwise whatever JSON value `json.load` returns, unchecked. -/
def load_previous_data : FileState → JValue
  | FileState.missing => JValue.arr []
  | FileState.invalid => JValue.arr []
  | FileState.content j => j

/-- Decode a JSON value as a string. -/
def decodeStr : JValue → Option String
  | JValue.str s => some s
  | _ => none

/-- Decode a JSON value as an optional string. -/
def decodeOptStr : JValue → Option (Option String)
  | JValue.null => some none
  | JValue.str s => some (some s)
  | _ => none

/-- Look up a key in a JSON object's field list. -/
def jLookup : List (String × JValue) → String → Option JValue
  | [], _ => none
  | p :: rest, k => if p.1 = k then some p.2 else jLookup rest k

/-- Decode a JSON array's elements as strings. -/
def decodeStrList : List JValue → Option (List String)
  | [] => some []
  | j :: rest =>
    match decodeStr j, decodeStrList rest with
    | some s, some ss => some (s :: ss)
    | _, _ => none

/-- Decode a JSON value as a conference record, by key lookup and hence
irrespective of key ordering. -/
def decodeConference : JValue → Option Conference
  | JValue.obj fields =>
    match jLookup fields "name" with
    | some jn =>
      match decodeStr jn with
      | some name =>
        match jLookup fields "details" with
        | some (JValue.arr ds) =>
          match decodeStrList ds with
          | some details =>
            match jLookup fields "parsed_date" with
            | some jd =>
              match decodeOptStr jd with
              | some parsed_date =>
                match jLookup fields "location" with
                | some jl =>
                  match decodeOptStr jl with
                  | some location =>
                    match jLookup fields "status" with
                    | some js =>
                      match decodeOptStr js with
                      | some status =>
                        match jLookup fields "id" with
                        | some ji =>
                          match decodeStr ji with
                          | some id =>
                            some { name := name, details := details,
                                   parsed_date := parsed_date, location := location,
                                   status := status, id := id }
                          | none => none
                        | none => none
                      | none => none
                    | none => none
                  | none => none
                | none => none
              | none => none
            | none => none
          | none => none
        | _ => none
      | none => none
    | none => none
  | _ => none

/-- Decode a JSON array's elements as conference records. -/
def decodeConfList : List JValue → Option (List Conference)
  | [] => some []
  | j :: rest =>
    match decodeConference j, decodeConfList rest with
    | some c, some cs => some (c :: cs)
    | _, _ => none

/-- Decode a JSON value as a snapshot: the expected structure of the
persisted file, a JSON array of record objects. -/
def decodeSnapshot : JValue → Option (List Conference)
  | JValue.arr xs => decodeConfList xs
  | _ => none

/-- The loaded value has the expected structure (a JSON array of records). -/
def isRecordArray (j : JValue) : Bool := (decodeSnapshot j).isSome

/-! ## Differ -/

/-- Insert into a Python dict modelled as an association list: an existing
key keeps its position and takes the new value, a new key is appended. -/
def dictInsert (m : List (String × Conference)) (k : String) (v : Conference) :
    List (String × Conference) :=
  if m.any (fun p => p.1 = k) then
    m.map (fun p => if p.1 = k then (k, v) else p)
  else
    m ++ [(k, v)]

/-- The dict comprehension `{conf['id']: conf for conf in data}`
(`check_conferences.py` lines 118-119): last value wins on id collision,
first position kept. -/
def toDict (cs : List Conference) : List (String × Conference) :=
  cs.foldl (fun m c => dictInsert m c.id c) []

/-- The keys of a dict, in dict order. -/
def dictKeys (m : List (String × Conference)) : List String := m.map Prod.fst

/-- Dict lookup. -/
def dictFind : List (String × Conference) → String → Option Conference
  | [], _ => none
  | p :: rest, k => if p.1 = k then some p.2 else dictFind rest k

/-- The modification test of `check_conferences.py` lines 144-147: any of
`details`, `parsed_date`, `location`, `status` differs. -/
def fieldsDiffer (a b : Conference) : Bool :=
  a.details ≠ b.details ∨ a.parsed_date ≠ b.parsed_date ∨
    a.location ≠ b.location ∨ a.status ≠ b.status

/-- One entry of the `modified` list: `{'id': ..., 'old': ..., 'new': ...}`. -/
structure ModEntry where
  id : String
  old : Conference
  new : Conference
deriving Repr, DecidableEq

/-- The `changes` dict returned by `compare_conferences`. -/
structure DiffResult where
  added : List Conference
  removed : List Conference
  modified : List ModEntry
deriving Repr, DecidableEq

/-- `compare_conferences` (`check_conferences.py` lines 116-154).  Python
iterates the id sets `new_ids - old_ids`, `old_ids - new_ids` and
`old_ids & new_ids` in an unspecified hash order; the spec makes no
ordering contract, and this model iterates them deterministically in dict
insertion order. -/
def compare_conferences (old_data new_data : List Conference) : DiffResult :=
  let old_conferences := toDict old_data
  let new_conferences := toDict new_data
  let old_ids := dictKeys old_conferences
  let new_ids := dictKeys new_conferences
  { added := (new_conferences.filter (fun p => ¬ old_ids.contains p.1)).map Prod.snd,
    removed := (old_conferences.filter (fun p => ¬ new_ids.contains p.1)).map Prod.snd,
    modified := old_conferences.filterMap (fun p =>
      match dictFind new_conferences p.1 with
      | some new_conf => if fieldsDiffer p.2 new_conf then
          some { id := p.1, old := p.2, new := new_conf } else none
      | none => none) }

/-! ## Report builder -/

/-- `' '.join(details)`. -/
def joinSpace : List String → String
  | [] => ""
  | [d] => d
  | d :: rest => d ++ " " ++ joinSpace rest

/-- The four grouping lists of `create_issue_body`
(`check_conferences.py` lines 187-190). -/
structure Buckets where
  active : List Conference
  cfp : List Conference
  sched : List Conference
  other : List Conference
deriving Repr, DecidableEq

/-- The first grouping condition (`check_conferences.py` line 196):
`'call for papers' in name_lower or 'call for papers' in details_str`,
where `details_str = ' '.join(details).lower()`. -/
def isCfp (conf : Conference) : Bool :=
  strContains (pyLower conf.name) "call for papers"
    || strContains (pyLower (joinSpace conf.details)) "call for papers"

/-- The second grouping condition (`check_conferences.py` line 198):
`'schedule' in name_lower and ('published' in name_lower or 'online' in name_lower)`. -/
def isSched (conf : Conference) : Bool :=
  strContains (pyLower conf.name) "schedule"
    && (strContains (pyLower conf.name) "published"
          || strContains (pyLower conf.name) "online")

/-- The third grouping condition (`check_conferences.py` line 200):
`any(event in name_lower for event in ['pgconf', 'pgday', 'postgresql conference'])`. -/
def isActive (conf : Conference) : Bool :=
  ["pgconf", "pgday", "postgresql conference"].any
    (fun w => strContains (pyLower conf.name) w)

/-- One iteration of the grouping loop (`check_conferences.py`
lines 192-203): the if/elif chain appends the record to exactly one list. -/
def classifyStep (b : Buckets) (conf : Conference) : Buckets :=
  if isCfp conf then
    { b with cfp := b.cfp ++ [conf] }
  else if isSched conf then
    { b with sched := b.sched ++ [conf] }
  else if isActive conf then
    { b with active := b.active ++ [conf] }
  else
    { b with other := b.other ++ [conf] }

/-- The grouping pass over all current conferences. -/
def groupConferences (all_conferences : List Conference) : Buckets :=
  all_conferences.foldl classifyStep ⟨[], [], [], []⟩

/-- A capped category section of the report (`check_conferences.py`
lines 205-227): header, up to `cap` names, an `and N more` line when
truncated, then a blank line; empty categories render nothing. -/
def sectionText (header : String) (confs : List Conference) (cap : Nat) : String :=
  if confs.isEmpty then ""
  else
    header
      ++ String.join ((confs.take cap).map (fun conf => "- **" ++ conf.name ++ "**\n"))
      ++ (if cap < confs.length then
            "- *... and " ++ toString (confs.length - cap) ++ " more*\n"
          else "")
      ++ "\n"

/-- The title, timestamp and added/removed/modified sections of the issue
body (`check_conferences.py` lines 159-180), with the `datetime.now()`
timestamp passed in as `now`. -/
def reportChangeSections (now : String) (changes : DiffResult) : String :=
  let body := "# PostgreSQL Conference Changes Detected\n\n"
  let body := body ++ "**Detection Date:** " ++ now ++ "\n\n"
  let body := body ++ (if changes.added.isEmpty then "" else
    "## 🆕 New Conferences Added\n\n"
      ++ String.join (changes.added.map (fun conf =>
           "### " ++ conf.name ++ "\n"
             ++ String.join ((conf.details.take 5).map (fun detail => "- " ++ detail ++ "\n"))
             ++ "\n")))
  let body := body ++ (if changes.removed.isEmpty then "" else
    "## ❌ Conferences Removed\n\n"
      ++ String.join (changes.removed.map (fun conf => "- **" ++ conf.name ++ "**\n"))
      ++ "\n")
  let body := body ++ (if changes.modified.isEmpty then "" else
    "## 📝 Conference Updates\n\n"
      ++ String.join (changes.modified.map (fun change =>
           "### " ++ change.new.name ++ "\n**Changes detected in conference details**\n\n")))
  body

/-- The fixed trailer of the issue body (`check_conferences.py`
lines 229-230). -/
def reportFooter : String :=
  "\n---\n*This issue was automatically created by the conference monitoring system.*"
    ++ "\n*Check the [source page](https://www.postgresql.org/about/newsarchive/conferences/) for full details.*"

/-- `create_issue_body` (`check_conferences.py` lines 157-232).  After the
change sections comes the current-snapshot part: the header, the total
count, and capped lists for the call-for-papers, schedule-published and
active buckets; the `other` bucket is collected at line 203 but never
rendered. -/
def create_issue_body (now : String) (changes : DiffResult)
    (all_conferences : List Conference) : String :=
  reportChangeSections now changes
    ++ "## 📋 All Current Conferences\n\n"
    ++ ("*Total conferences tracked: " ++ toString all_conferences.length ++ "*\n\n")
    ++ sectionText "### 📢 Call for Papers Open\n" (groupConferences all_conferences).cfp 10
    ++ sectionText "### 📅 Schedule Published\n" (groupConferences all_conferences).sched 10
    ++ sectionText "### 🎯 Active Conferences\n" (groupConferences all_conferences).active 15
    ++ reportFooter

/-! ## Spec-side definitions used to state the claims -/

/-- The value the overwriting field updates of `check_conferences.py`
lines 59-66 actually compute: the last element of the list satisfying the
predicate, `none` when there is none. -/
def lastMatch (p : String → Bool) (l : List String) : Option String :=
  l.foldl (fun acc x => if p x then some x else acc) none

/-- A detail line sets `parsed_date` when the month regex fires on it. -/
def isMonthLine (d : String) : Bool := monthSearch (pyLower d)

/-- A detail line sets `location` when it contains a location keyword. -/
def isLocationLine (d : String) : Bool := containsAny (pyLower d) locationWords

/-- A detail line sets `status` when it contains a status keyword. -/
def isStatusLine (d : String) : Bool := containsAny (pyLower d) statusWords

/-- The three optional fields of a record are the last matching detail
line for their respective pattern. -/
def fieldsAreLastMatches (c : RawConf) : Prop :=
  c.parsed_date = lastMatch isMonthLine c.details
    ∧ c.location = lastMatch isLocationLine c.details
    ∧ c.status = lastMatch isStatusLine c.details

/-- Scan-state invariant: every emitted record and the record under
construction have their optional fields equal to the last matching detail
line. -/
def scanInv (st : ExtractState) : Prop :=
  (∀ c ∈ st.out, fieldsAreLastMatches c)
    ∧ ∀ c, st.current = some c → fieldsAreLastMatches c

/-- Collapse whitespace runs to single underscores (`inRun` is true just
after a whitespace character). -/
def collapseRuns : Bool → List Char → List Char
  | _, [] => []
  | inRun, c :: rest =>
    if pySpace c then
      (if inRun then [] else ['_']) ++ collapseRuns true rest
    else
      c :: collapseRuns false rest

/-- Modelled from the spec: the slug C4 describes — lowercase the name,
strip every character that is not a word character or whitespace, trim,
and replace each internal whitespace run with a single underscore.  This
is the claim's algorithm, to be compared with `makeId` from the source. -/
def claimedSlug (name : String) : String :=
  ⟨collapseRuns false (pyStripList ((pyLower name).data.filter
      (fun c => wordChar c || pySpace c)))⟩

/-- Records that agree on everything the differ inspects — `id`,
`details`, `parsed_date`, `location`, `status` — and differ at most in
`name`. -/
def sameExceptName (a b : Conference) : Prop :=
  a.id = b.id ∧ a.details = b.details ∧ a.parsed_date = b.parsed_date
    ∧ a.location = b.location ∧ a.status = b.status

/-- The id multiset of the `added` list of a diff. -/
def addedIds (d : DiffResult) : List String := d.added.map Conference.id

/-- The id multiset of the `removed` list of a diff. -/
def removedIds (d : DiffResult) : List String := d.removed.map Conference.id

/-- The id multiset of the `modified` list of a diff. -/
def modifiedIds (d : DiffResult) : List String := d.modified.map ModEntry.id

/-! ## Concrete inputs used by the scenario theorem, counterexamples and
witnesses -/

/-- The normalized line sequence of the spec's extraction scenario. -/
def scenarioLines : List String :=
  ["PGConf US 2025", "October 2025", "New York City",
   "Registration open", "", "PGDay Nordic", "Call for Papers"]

/-- The first record the scenario must produce. -/
def scenarioRecA : Conference :=
  { name := "PGConf US 2025",
    details := ["October 2025", "New York City", "Registration open"],
    parsed_date := some "October 2025", location := some "New York City",
    status := some "Registration open", id := "pgconf_us_2025" }

/-- The second record the scenario must produce. -/
def scenarioRecB : Conference :=
  { name := "PGDay Nordic", details := ["Call for Papers"],
    parsed_date := none, location := none, status := some "Call for Papers",
    id := "pgday_nordic" }

/-- The record extracted from `["PGConf US", "January fest",
"February fest"]`: two detail lines match the month pattern and the later
one overwrites the earlier one. -/
def overwriteRec : RawConf :=
  { name := "PGConf US", details := ["January fest", "February fest"],
    parsed_date := some "February fest", location := none, status := none }

/-- A record matching no report-bucket predicate: it lands in the `other`
bucket, which the report never renders. -/
def otherRec : Conference :=
  { name := "Random Meetup Berlin", details := [], parsed_date := none,
    location := none, status := none, id := "random_meetup_berlin" }

/-- The record a run on the single line `"PGDay Nordic"` keeps: same name
as `scenarioRecB` but no details. -/
def nordicBareRec : Conference :=
  { name := "PGDay Nordic", details := [], parsed_date := none, location := none,
    status := none, id := "pgday_nordic" }

/-- `scenarioRecA` with only the `name` changed: the differ must treat the
two snapshots alike. -/
def renamedRecA : Conference :=
  { name := "Renamed Conf",
    details := ["October 2025", "New York City", "Registration open"],
    parsed_date := some "October 2025", location := some "New York City",
    status := some "Registration open", id := "pgconf_us_2025" }

/-- `sameExceptName` lifted to dict entries: equal keys, related values. -/
def entryRel (p q : String × Conference) : Prop :=
  p.1 = q.1 ∧ sameExceptName p.2 q.2

/-! ## Theorems -/

set_option maxRecDepth 8000

/-- C6: on the scenario lines, extraction followed by deduplication
produces exactly the two expected records — id `pgconf_us_2025` with
`parsed_date = "October 2025"`, `location = "New York City"`,
`status = "Registration open"`, and id `pgday_nordic` with
`status = "Call for Papers"` — in this order. -/
theorem scenario_extraction :
    fetch_conferences scenarioLines = [scenarioRecA, scenarioRecB] := by decide

/-- C1 counterexample: on `["PGConf US", "January fest", "February fest"]`
the extractor's `parsed_date` is the second month-matching detail line,
not the first: the field updates at lines 59-66 overwrite on every match,
so the claimed first-match-wins rule fails. -/
theorem extractor_overwrites_counterexample :
    extractConferences ["PGConf US", "January fest", "February fest"] = [overwriteRec]
      ∧ (overwriteRec.details.filter isMonthLine).head? = some "January fest"
      ∧ overwriteRec.parsed_date ≠ (overwriteRec.details.filter isMonthLine).head? := by
  decide

/-- C3 counterexample: the dedup loop drops duplicates by exact `name`
only, so the two distinct names `"PGConf US"` and `"pgconf us"` are both
kept and normalize to the same id `pgconf_us`: after deduplication `id`
does not uniquely identify a record. -/
theorem id_collision_counterexample :
    (fetch_conferences ["PGConf US", "", "pgconf us"]).map Conference.name
        = ["PGConf US", "pgconf us"]
      ∧ (fetch_conferences ["PGConf US", "", "pgconf us"]).map Conference.id
        = ["pgconf_us", "pgconf_us"] := by decide

/-- C4 counterexample: on the name `"PGDay-Nordic  2025"` the code's slug
keeps the hyphen (the regex strips `[^\w\s-]`, which spares `-`) and
turns the two-space run into two underscores (`.replace(' ', '_')` acts
per character), so it differs from the claim's strip-non-word-or-space,
collapse-whitespace-runs slug. -/
theorem slug_formula_counterexample :
    makeId "PGDay-Nordic  2025" = "pgday-nordic__2025"
      ∧ claimedSlug "PGDay-Nordic  2025" = "pgdaynordic_2025"
      ∧ makeId "PGDay-Nordic  2025" ≠ claimedSlug "PGDay-Nordic  2025"
      ∧ (fetch_conferences ["PGDay-Nordic  2025"]).map Conference.id
          = ["pgday-nordic__2025"] := by decide

/-- C5 counterexample: a file whose content is the valid JSON value `123`
is not the expected structure (a JSON array of records), yet
`load_previous_data` returns it unchanged rather than an empty sequence:
the function only recovers from decode errors, it does not validate the
decoded shape. -/
theorem load_passthrough_counterexample :
    load_previous_data (FileState.content (JValue.num 123)) = JValue.num 123
      ∧ isRecordArray (JValue.num 123) = false
      ∧ load_previous_data (FileState.content (JValue.num 123)) ≠ JValue.arr [] := by
  refine ⟨rfl, rfl, fun h => ?_⟩
  cases h

/-- C5 amended: load is total and recovers from a missing file and from
content on which `json.load` raises (invalid JSON or a read error),
returning an empty sequence in both cases; any successfully decoded JSON
value, of whatever shape, is returned as-is without validation. -/
theorem load_total_amended :
    load_previous_data FileState.missing = JValue.arr []
      ∧ load_previous_data FileState.invalid = JValue.arr []
      ∧ decodeSnapshot (load_previous_data FileState.invalid) = some []
      ∧ ∀ j, load_previous_data (FileState.content j) = j :=
  ⟨rfl, rfl, rfl, fun _ => rfl⟩

theorem lastMatch_append (p : String → Bool) (l : List String) (x : String) :
    lastMatch p (l ++ [x]) = if p x then some x else lastMatch p l := by
  simp [lastMatch, List.foldl_append]

theorem fieldsAreLastMatches_fresh (n : String) :
    fieldsAreLastMatches
      { name := n, details := [], parsed_date := none, location := none, status := none } := by
  exact ⟨rfl, rfl, rfl⟩

theorem mem_emitCurrent {st : ExtractState} {c : RawConf} (h : c ∈ emitCurrent st) :
    c ∈ st.out ∨ st.current = some c := by
  unfold emitCurrent at h
  cases hc : st.current with
  | none => rw [hc] at h; exact Or.inl h
  | some d =>
    rw [hc] at h
    rcases List.mem_append.1 h with h1 | h1
    · exact Or.inl h1
    · rw [List.mem_singleton.1 h1]
      exact Or.inr rfl

theorem fieldsAreLastMatches_detail (c : RawConf) (line : String)
    (h : fieldsAreLastMatches c) :
    fieldsAreLastMatches
      (let c1 := { c with details := c.details ++ [line] }
       let c2 := if monthSearch (pyLower line) then { c1 with parsed_date := some line } else c1
       let c3 := if containsAny (pyLower line) locationWords then
         { c2 with location := some line } else c2
       if containsAny (pyLower line) statusWords then
         { c3 with status := some line } else c3) := by
  obtain ⟨h1, h2, h3⟩ := h
  refine ⟨?_, ?_, ?_⟩ <;>
    · dsimp only
      split_ifs <;>
        simp_all [lastMatch_append, isMonthLine, isLocationLine, isStatusLine]

theorem scanInv_processLine (st : ExtractState) (line : String) (h : scanInv st) :
    scanInv (processLine st line) := by
  obtain ⟨hout, hcur⟩ := h
  have hemit : ∀ c ∈ emitCurrent st, fieldsAreLastMatches c := by
    intro c hc
    rcases mem_emitCurrent hc with h1 | h1
    · exact hout c h1
    · exact hcur c h1
  unfold processLine
  dsimp only
  by_cases h1 : containsAny (pyLower line) skipWords = true
  · rw [if_pos h1]
    exact ⟨hout, hcur⟩
  rw [if_neg h1]
  by_cases h2 : containsAny (pyLower line) triggerWords = true
  · rw [if_pos h2]
    refine ⟨hemit, ?_⟩
    intro c hc
    rw [← Option.some_inj.1 hc]
    exact fieldsAreLastMatches_fresh _
  rw [if_neg h2]
  by_cases h3 : (st.inSection && decide (line ≠ "")) = true
  · rw [if_pos h3]
    cases hc : st.current with
    | none => exact ⟨hout, hcur⟩
    | some c =>
      refine ⟨hout, ?_⟩
      intro d hd
      rw [← Option.some_inj.1 hd]
      exact fieldsAreLastMatches_detail c line (hcur c hc)
  rw [if_neg h3]
  by_cases h4 : (st.inSection && decide (line = "")) = true
  · rw [if_pos h4]
    refine ⟨hemit, ?_⟩
    intro c hc
    exact Option.noConfusion hc
  · rw [if_neg h4]
    exact ⟨hout, hcur⟩

theorem scanInv_foldl (lines : List String) :
    ∀ st : ExtractState, scanInv st → scanInv (lines.foldl processLine st) := by
  induction lines with
  | nil => intro st h; exact h
  | cons l ls ih => intro st h; exact ih _ (scanInv_processLine st l h)

/-- C1 amended: the optional fields are set by the *last* matching detail
line — each matching line overwrites the field, so for every record the
extractor emits, `parsed_date` is the last detail line matching the
month-name pattern, `location` the last detail line containing a location
keyword, and `status` the last detail line containing a status keyword
(`none` when no detail line matches). -/
theorem extractor_fields_last_match (lines : List String) (c : RawConf)
    (h : c ∈ extractConferences lines) :
    c.parsed_date = lastMatch isMonthLine c.details
      ∧ c.location = lastMatch isLocationLine c.details
      ∧ c.status = lastMatch isStatusLine c.details := by
  have hinv : scanInv (lines.foldl processLine ⟨none, false, []⟩) :=
    scanInv_foldl lines ⟨none, false, []⟩
      ⟨fun c h => absurd h (List.not_mem_nil c), fun c h => Option.noConfusion h⟩
  unfold extractConferences at h
  rcases mem_emitCurrent h with h1 | h1
  · exact hinv.1 c h1
  · exact hinv.2 c h1

/-- Witness for C1 amended: applied to the overwrite scenario. -/
theorem extractor_fields_last_match_witness :
    overwriteRec.parsed_date = lastMatch isMonthLine overwriteRec.details
      ∧ overwriteRec.location = lastMatch isLocationLine overwriteRec.details
      ∧ overwriteRec.status = lastMatch isStatusLine overwriteRec.details :=
  extractor_fields_last_match ["PGConf US", "January fest", "February fest"]
    overwriteRec (by decide)

theorem cleanConferences_names (rs : List RawConf) :
    ∀ seen : List String,
      ((cleanConferences rs seen).map Conference.name).Nodup
        ∧ ∀ n ∈ (cleanConferences rs seen).map Conference.name, n ∉ seen := by
  induction rs with
  | nil =>
    intro seen
    exact ⟨List.nodup_nil, by intro n hn; cases hn⟩
  | cons r rest ih =>
    intro seen
    unfold cleanConferences
    split
    · rename_i hr
      obtain ⟨hd, hs⟩ := ih (r.name :: seen)
      refine ⟨?_, ?_⟩
      · rw [List.map_cons, List.nodup_cons]
        exact ⟨fun hmem => hs _ hmem (List.mem_cons_self _ _), hd⟩
      · intro n hn
        rcases List.mem_cons.1 hn with h1 | h1
        · rw [h1]; exact hr.2
        · exact fun hmem => hs n h1 (List.mem_cons_of_mem _ hmem)
    · exact ih seen

/-- C3 amended: after deduplication `name`, not `id`, uniquely identifies
a record within a single extraction run: any two distinct records in the
deduplicated output have distinct `name` values (later duplicates by name
having been dropped, first occurrence kept); two kept records may still
share an `id` when their distinct names normalize to the same slug. -/
theorem dedup_names_unique (rs : List RawConf) :
    ((cleanConferences rs []).map Conference.name).Nodup :=
  (cleanConferences_names rs []).1

theorem cleanConferences_mem {rs : List RawConf} {seen : List String} {c : Conference}
    (h : c ∈ cleanConferences rs seen) :
    (∃ r ∈ rs, c.name = r.name ∧ c.details = r.details ∧ c.parsed_date = r.parsed_date
        ∧ c.location = r.location ∧ c.status = r.status)
      ∧ c.id = makeId c.name := by
  induction rs generalizing seen with
  | nil => cases h
  | cons r rest ih =>
    unfold cleanConferences at h
    split at h
    · rcases List.mem_cons.1 h with h1 | h1
      · subst h1
        exact ⟨⟨r, List.mem_cons_self _ _, rfl, rfl, rfl, rfl, rfl⟩, rfl⟩
      · obtain ⟨⟨r0, hr0, he⟩, hid⟩ := ih h1
        exact ⟨⟨r0, List.mem_cons_of_mem _ hr0, he⟩, hid⟩
    · obtain ⟨⟨r0, hr0, he⟩, hid⟩ := ih h
      exact ⟨⟨r0, List.mem_cons_of_mem _ hr0, he⟩, hid⟩

/-- C4 amended: for every kept record the assigned `id` equals `makeId`
of the record's name: strip every character that is not a word character,
whitespace or a hyphen, trim, replace each space character by an
underscore (a run of k spaces yields k underscores; hyphens are kept),
and lowercase. -/
theorem dedup_id_formula (rs : List RawConf) (c : Conference)
    (h : c ∈ cleanConferences rs []) :
    c.id = makeId c.name :=
  (cleanConferences_mem h).2

/-- Witness for C4 amended: the scenario's first record. -/
theorem dedup_id_formula_witness : scenarioRecA.id = makeId scenarioRecA.name :=
  dedup_id_formula (extractConferences scenarioLines) scenarioRecA (by decide)

theorem cleanConferences_length (rs : List RawConf) :
    ∀ seen : List String, (cleanConferences rs seen).length ≤ rs.length := by
  induction rs with
  | nil => intro seen; exact Nat.le_refl 0
  | cons r rest ih =>
    intro seen
    unfold cleanConferences
    split
    · exact Nat.succ_le_succ (ih _)
    · exact Nat.le_succ_of_le (ih _)

/-- C8: deduplication never increases the record count, never changes a
kept record's name (every kept record is one of the raw records, all
content fields unchanged), and the id assigned to a given name is
deterministic: records kept in any two runs with the same name receive
the same id. -/
theorem dedup_shrinks_preserves_names (rs : List RawConf) :
    (cleanConferences rs []).length ≤ rs.length
      ∧ (∀ c ∈ cleanConferences rs [], ∃ r ∈ rs, c.name = r.name
          ∧ c.details = r.details ∧ c.parsed_date = r.parsed_date
          ∧ c.location = r.location ∧ c.status = r.status)
      ∧ ∀ (rs2 : List RawConf) (c c2 : Conference),
          c ∈ cleanConferences rs [] → c2 ∈ cleanConferences rs2 [] →
          c.name = c2.name → c.id = c2.id := by
  refine ⟨cleanConferences_length rs [], ?_, ?_⟩
  · intro c hc
    exact (cleanConferences_mem hc).1
  · intro rs2 c c2 hc hc2 hname
    rw [(cleanConferences_mem hc).2, (cleanConferences_mem hc2).2, hname]

/-- Witness for C8: the same name kept in two different runs receives the
same id. -/
theorem dedup_shrinks_preserves_names_witness :
    (cleanConferences (extractConferences scenarioLines) []).length
        ≤ (extractConferences scenarioLines).length
      ∧ scenarioRecB.id = nordicBareRec.id := by
  refine ⟨(dedup_shrinks_preserves_names (extractConferences scenarioLines)).1, ?_⟩
  exact (dedup_shrinks_preserves_names (extractConferences scenarioLines)).2.2
    (extractConferences ["PGDay Nordic"]) scenarioRecB nordicBareRec
    (by decide) (by decide) rfl

theorem foldl_classifyStep (all : List Conference) :
    ∀ b : Buckets, all.foldl classifyStep b =
      { active := b.active ++ all.filter (fun c => !isCfp c && !isSched c && isActive c),
        cfp := b.cfp ++ all.filter (fun c => isCfp c),
        sched := b.sched ++ all.filter (fun c => !isCfp c && isSched c),
        other := b.other ++ all.filter (fun c => !isCfp c && !isSched c && !isActive c) } := by
  induction all with
  | nil => intro b; simp
  | cons c rest ih =>
    intro b
    rw [List.foldl_cons, ih]
    unfold classifyStep
    by_cases h1 : isCfp c = true <;> by_cases h2 : isSched c = true <;>
      by_cases h3 : isActive c = true <;>
      simp [h1, h2, h3, List.filter_cons]

theorem bucket_length_partition (all : List Conference) :
    (all.filter (fun c => isCfp c)).length
      + (all.filter (fun c => !isCfp c && isSched c)).length
      + (all.filter (fun c => !isCfp c && !isSched c && isActive c)).length
      + (all.filter (fun c => !isCfp c && !isSched c && !isActive c)).length
      = all.length := by
  induction all with
  | nil => rfl
  | cons c rest ih =>
    by_cases h1 : isCfp c = true <;> by_cases h2 : isSched c = true <;>
      by_cases h3 : isActive c = true <;>
      · simp [List.filter_cons, h1, h2, h3]
        omega

/-- C2 amended: every current record is bucketed into exactly one of the
four categories by the first-match-wins chain (the buckets are the four
complementary filters and their sizes sum to the record count); the
call-for-papers, schedule-published and active categories are rendered as
capped lists of 10, 10 and 15 names with an `and N more` suffix when
truncated — but the `other` category is not rendered at all, so records
falling into it appear in no category section of the report. -/
theorem report_buckets_amended (all_conferences : List Conference) (now : String)
    (changes : DiffResult) :
    (groupConferences all_conferences).cfp
        = all_conferences.filter (fun c => isCfp c)
      ∧ (groupConferences all_conferences).sched
        = all_conferences.filter (fun c => !isCfp c && isSched c)
      ∧ (groupConferences all_conferences).active
        = all_conferences.filter (fun c => !isCfp c && !isSched c && isActive c)
      ∧ (groupConferences all_conferences).other
        = all_conferences.filter (fun c => !isCfp c && !isSched c && !isActive c)
      ∧ (groupConferences all_conferences).cfp.length
          + (groupConferences all_conferences).sched.length
          + (groupConferences all_conferences).active.length
          + (groupConferences all_conferences).other.length
        = all_conferences.length
      ∧ create_issue_body now changes all_conferences
        = reportChangeSections now changes
            ++ "## 📋 All Current Conferences\n\n"
            ++ ("*Total conferences tracked: " ++ toString all_conferences.length ++ "*\n\n")
            ++ sectionText "### 📢 Call for Papers Open\n"
                 (groupConferences all_conferences).cfp 10
            ++ sectionText "### 📅 Schedule Published\n"
                 (groupConferences all_conferences).sched 10
            ++ sectionText "### 🎯 Active Conferences\n"
                 (groupConferences all_conferences).active 15
            ++ reportFooter := by
  have hg := foldl_classifyStep all_conferences ⟨[], [], [], []⟩
  have hcfp : (groupConferences all_conferences).cfp
      = all_conferences.filter (fun c => isCfp c) := by
    rw [groupConferences, hg]; simp
  have hsched : (groupConferences all_conferences).sched
      = all_conferences.filter (fun c => !isCfp c && isSched c) := by
    rw [groupConferences, hg]; simp
  have hact : (groupConferences all_conferences).active
      = all_conferences.filter (fun c => !isCfp c && !isSched c && isActive c) := by
    rw [groupConferences, hg]; simp
  have hoth : (groupConferences all_conferences).other
      = all_conferences.filter (fun c => !isCfp c && !isSched c && !isActive c) := by
    rw [groupConferences, hg]; simp
  refine ⟨hcfp, hsched, hact, hoth, ?_, rfl⟩
  rw [hcfp, hsched, hact, hoth]
  have := bucket_length_partition all_conferences
  omega

/-- C2 counterexample: a record matching none of the three rendered
bucket predicates lands in the `other` bucket; the issue body built from
a no-change diff over this one current record nowhere contains the
record's name — the `other` category has no rendered section, so not
every current record appears under a rendered category section. -/
theorem other_bucket_unrendered_counterexample :
    groupConferences [otherRec] = ⟨[], [], [], [otherRec]⟩
      ∧ strContains (create_issue_body "2025-01-01 00:00:00 UTC"
            (compare_conferences [otherRec] [otherRec]) [otherRec])
          otherRec.name = false := by decide

theorem decodeStrList_map_str (l : List String) :
    decodeStrList (l.map JValue.str) = some l := by
  induction l with
  | nil => rfl
  | cons s rest ih => simp [decodeStrList, decodeStr, ih]

theorem decodeConference_toJson (c : Conference) :
    decodeConference (conferenceToJson c) = some c := by
  obtain ⟨name, details, pd, loc, st, id⟩ := c
  simp only [conferenceToJson, decodeConference, jLookup, decodeStr]
  norm_num
  cases pd <;> cases loc <;> cases st <;>
    simp [optStr, decodeOptStr, decodeStrList_map_str]

/-- C9: saving a snapshot and loading it back yields a record sequence
equal in content to the original: the JSON document `save_current_data`
writes decodes, record by record and field by field, to exactly the
records that were saved (the decoder reads fields by key lookup, so the
result is independent of key ordering). -/
theorem save_load_round_trip (snap : List Conference) :
    decodeSnapshot (load_previous_data (FileState.content (save_current_data snap)))
      = some snap := by
  show decodeSnapshot (save_current_data snap) = some snap
  have h : ∀ l : List Conference, decodeConfList (l.map conferenceToJson) = some l := by
    intro l
    induction l with
    | nil => rfl
    | cons c rest ih => simp [decodeConfList, decodeConference_toJson, ih]
  simp [save_current_data, decodeSnapshot, h]

theorem dictKeys_map_subst (m : List (String × Conference)) (k : String) (v : Conference) :
    dictKeys (m.map (fun p => if p.1 = k then (k, v) else p)) = dictKeys m := by
  induction m with
  | nil => rfl
  | cons p rest ih =>
    by_cases hp : p.1 = k <;> simp [dictKeys, hp] <;> simpa [dictKeys] using ih

theorem nodup_dictKeys_dictInsert {m : List (String × Conference)}
    (h : (dictKeys m).Nodup) (k : String) (v : Conference) :
    (dictKeys (dictInsert m k v)).Nodup := by
  unfold dictInsert
  split
  · rw [dictKeys_map_subst]; exact h
  · rename_i hany
    have hkeys : dictKeys (m ++ [(k, v)]) = dictKeys m ++ [k] := by simp [dictKeys]
    have hk : k ∉ dictKeys m := by
      intro hmem
      apply hany
      simp only [dictKeys, List.mem_map] at hmem
      obtain ⟨p, hp, he⟩ := hmem
      simp only [List.any_eq_true]
      exact ⟨p, hp, by simp [he]⟩
    rw [hkeys]
    simp [List.nodup_append, h, hk]

theorem nodup_dictKeys_toDict (cs : List Conference) : (dictKeys (toDict cs)).Nodup := by
  unfold toDict
  suffices hs : ∀ m, (dictKeys m).Nodup →
      (dictKeys (cs.foldl (fun m c => dictInsert m c.id c) m)).Nodup from
    hs [] List.nodup_nil
  induction cs with
  | nil => intro m h; exact h
  | cons c rest ih => intro m h; exact ih _ (nodup_dictKeys_dictInsert h c.id c)

theorem mem_iff_dictFind {m : List (String × Conference)} (h : (dictKeys m).Nodup)
    (k : String) (v : Conference) : (k, v) ∈ m ↔ dictFind m k = some v := by
  induction m with
  | nil => simp [dictFind]
  | cons p rest ih =>
    obtain ⟨pk, pv⟩ := p
    have hn : pk ∉ dictKeys rest := (List.nodup_cons.1 (by simpa [dictKeys] using h)).1
    have ht : (dictKeys rest).Nodup := (List.nodup_cons.1 (by simpa [dictKeys] using h)).2
    by_cases hk : pk = k
    · subst hk
      simp only [dictFind, if_pos rfl, List.mem_cons]
      constructor
      · rintro (h1 | h1)
        · rw [Prod.mk.injEq] at h1
          simp [h1.2]
        · exact absurd (by simpa [dictKeys] using List.mem_map_of_mem Prod.fst h1) hn
      · intro h1
        exact Or.inl (by rw [Option.some_inj.1 h1])
    · simp only [dictFind, if_neg hk, List.mem_cons]
      rw [← ih ht]
      constructor
      · rintro (h1 | h1)
        · rw [Prod.mk.injEq] at h1
          exact absurd h1.1.symm hk
        · exact h1
      · exact Or.inr

theorem fieldsDiffer_symm (a b : Conference) : fieldsDiffer a b = fieldsDiffer b a := by
  unfold fieldsDiffer
  rw [decide_eq_decide]
  constructor
  · rintro (h | h | h | h)
    exacts [Or.inl h.symm, Or.inr (Or.inl h.symm), Or.inr (Or.inr (Or.inl h.symm)),
      Or.inr (Or.inr (Or.inr h.symm))]
  · rintro (h | h | h | h)
    exacts [Or.inl h.symm, Or.inr (Or.inl h.symm), Or.inr (Or.inr (Or.inl h.symm)),
      Or.inr (Or.inr (Or.inr h.symm))]

theorem mem_modified_iff (o n : List Conference) (i : String) (a b : Conference) :
    (⟨i, a, b⟩ : ModEntry) ∈ (compare_conferences o n).modified
      ↔ dictFind (toDict o) i = some a ∧ dictFind (toDict n) i = some b
          ∧ fieldsDiffer a b = true := by
  unfold compare_conferences
  simp only [List.mem_filterMap]
  constructor
  · rintro ⟨p, hp, hf⟩
    cases hd : dictFind (toDict n) p.1 with
    | none =>
      rw [hd] at hf
      exact Option.noConfusion hf
    | some nc =>
      rw [hd] at hf
      revert hf
      show (if fieldsDiffer p.2 nc = true then some (⟨p.1, p.2, nc⟩ : ModEntry) else none)
          = some ⟨i, a, b⟩ → _
      intro hf
      by_cases hdiff : fieldsDiffer p.2 nc = true
      · rw [if_pos hdiff] at hf
        have he := Option.some_inj.1 hf
        rw [ModEntry.mk.injEq] at he
        obtain ⟨h1, h2, h3⟩ := he
        subst h1; subst h2; subst h3
        refine ⟨?_, hd, hdiff⟩
        exact (mem_iff_dictFind (nodup_dictKeys_toDict o) p.1 p.2).1 hp
      · rw [if_neg hdiff] at hf
        exact Option.noConfusion hf
  · rintro ⟨ha, hb, hdiff⟩
    refine ⟨(i, a), (mem_iff_dictFind (nodup_dictKeys_toDict o) i a).2 ha, ?_⟩
    show (match dictFind (toDict n) i with
      | some nc => if fieldsDiffer a nc then some (⟨i, a, nc⟩ : ModEntry) else none
      | none => none) = some ⟨i, a, b⟩
    rw [hb]
    show (if fieldsDiffer a b = true then some (⟨i, a, b⟩ : ModEntry) else none)
        = some ⟨i, a, b⟩
    rw [if_pos hdiff]

/-- C7: the differ is structurally symmetric — swapping the two snapshots
swaps `added` and `removed` exactly, and an entry `(i, a, b)` is in the
modified list of one direction exactly when `(i, b, a)` is in the
modified list of the other, so the modified id sets coincide. -/
theorem compare_symmetric (o n : List Conference) :
    (compare_conferences o n).added = (compare_conferences n o).removed
      ∧ (compare_conferences o n).removed = (compare_conferences n o).added
      ∧ (∀ (i : String) (a b : Conference),
            (⟨i, a, b⟩ : ModEntry) ∈ (compare_conferences o n).modified
              ↔ (⟨i, b, a⟩ : ModEntry) ∈ (compare_conferences n o).modified)
      ∧ ∀ i, i ∈ modifiedIds (compare_conferences o n)
          ↔ i ∈ modifiedIds (compare_conferences n o) := by
  have hswap : ∀ (i : String) (a b : Conference),
      (⟨i, a, b⟩ : ModEntry) ∈ (compare_conferences o n).modified
        ↔ (⟨i, b, a⟩ : ModEntry) ∈ (compare_conferences n o).modified := by
    intro i a b
    rw [mem_modified_iff, mem_modified_iff, fieldsDiffer_symm]
    tauto
  refine ⟨rfl, rfl, hswap, ?_⟩
  intro i
  unfold modifiedIds
  simp only [List.mem_map]
  constructor
  · rintro ⟨e, he, hid⟩
    subst hid
    exact ⟨⟨e.id, e.new, e.old⟩, (hswap e.id e.old e.new).1 he, rfl⟩
  · rintro ⟨e, he, hid⟩
    subst hid
    exact ⟨⟨e.id, e.new, e.old⟩, (hswap e.id e.new e.old).2 he, rfl⟩

theorem entryRel_keys {m mv : List (String × Conference)}
    (h : List.Forall₂ entryRel m mv) : dictKeys m = dictKeys mv := by
  induction h with
  | nil => rfl
  | cons hpq hrest ih => simpa [dictKeys] using ⟨hpq.1, by simpa [dictKeys] using ih⟩

theorem entryRel_any_eq {m mv : List (String × Conference)}
    (h : List.Forall₂ entryRel m mv) (k : String) :
    m.any (fun p => p.1 = k) = mv.any (fun p => p.1 = k) := by
  induction h with
  | nil => rfl
  | cons hpq hrest ih => simp [hpq.1, ih]

theorem entryRel_map_subst {m mv : List (String × Conference)}
    (h : List.Forall₂ entryRel m mv) (k : String) {v w : Conference}
    (hv : sameExceptName v w) :
    List.Forall₂ entryRel (m.map (fun p => if p.1 = k then (k, v) else p))
      (mv.map (fun p => if p.1 = k then (k, w) else p)) := by
  induction h with
  | nil => exact List.Forall₂.nil
  | @cons p q ps qs hpq hrest ih =>
    simp only [List.map_cons]
    refine List.Forall₂.cons ?_ ih
    by_cases hk : p.1 = k
    · rw [if_pos hk, if_pos (hpq.1 ▸ hk)]
      exact ⟨rfl, hv⟩
    · rw [if_neg hk, if_neg (fun hq => hk (hpq.1.trans hq))]
      exact hpq

theorem entryRel_dictInsert {m mv : List (String × Conference)}
    (h : List.Forall₂ entryRel m mv) (k : String) {v w : Conference}
    (hv : sameExceptName v w) :
    List.Forall₂ entryRel (dictInsert m k v) (dictInsert mv k w) := by
  unfold dictInsert
  rw [entryRel_any_eq h k]
  split
  · exact entryRel_map_subst h k hv
  · exact List.rel_append h (List.Forall₂.cons ⟨rfl, hv⟩ List.Forall₂.nil)

theorem entryRel_toDict {cs cv : List Conference}
    (h : List.Forall₂ sameExceptName cs cv) :
    List.Forall₂ entryRel (toDict cs) (toDict cv) := by
  unfold toDict
  suffices hs : ∀ m mv, List.Forall₂ entryRel m mv →
      List.Forall₂ entryRel (cs.foldl (fun m c => dictInsert m c.id c) m)
        (cv.foldl (fun m c => dictInsert m c.id c) mv) from
    hs [] [] List.Forall₂.nil
  induction h with
  | nil => intro m mv hm; exact hm
  | @cons c d cs2 cv2 hcd hrest ih =>
    intro m mv hm
    simp only [List.foldl_cons]
    refine ih _ _ ?_
    rw [show d.id = c.id from hcd.1.symm]
    exact entryRel_dictInsert hm c.id hcd

theorem entryRel_filter_ids {m mv : List (String × Conference)}
    (h : List.Forall₂ entryRel m mv) (ks : List String) :
    ((m.filter (fun p => ¬ ks.contains p.1)).map Prod.snd).map Conference.id
      = ((mv.filter (fun p => ¬ ks.contains p.1)).map Prod.snd).map Conference.id := by
  induction h with
  | nil => rfl
  | @cons p q ps qs hpq hrest ih =>
    by_cases hk : q.1 ∈ ks
    · simp [List.filter_cons, hpq.1, hk] at ih ⊢
      exact ih
    · simp [List.filter_cons, hpq.1, hk, hpq.2.1] at ih ⊢
      exact ih

theorem entryRel_dictFind {m mv : List (String × Conference)}
    (h : List.Forall₂ entryRel m mv) (k : String) :
    (dictFind m k = none ∧ dictFind mv k = none)
      ∨ ∃ v w, dictFind m k = some v ∧ dictFind mv k = some w ∧ sameExceptName v w := by
  induction h with
  | nil => exact Or.inl ⟨rfl, rfl⟩
  | @cons p q ps qs hpq hrest ih =>
    by_cases hk : p.1 = k
    · right
      exact ⟨p.2, q.2, by simp [dictFind, hk], by simp [dictFind, hpq.1 ▸ hk], hpq.2⟩
    · have hq : ¬ q.1 = k := fun hqk => hk (hpq.1.trans hqk)
      simpa [dictFind, hk, hq] using ih

theorem fieldsDiffer_congr {a a2 b b2 : Conference}
    (ha : sameExceptName a a2) (hb : sameExceptName b b2) :
    fieldsDiffer a b = fieldsDiffer a2 b2 := by
  unfold fieldsDiffer
  rw [ha.2.1, ha.2.2.1, ha.2.2.2.1, ha.2.2.2.2,
    hb.2.1, hb.2.2.1, hb.2.2.2.1, hb.2.2.2.2]

theorem entryRel_modified_ids {oldm oldmv newm newmv : List (String × Conference)}
    (ho : List.Forall₂ entryRel oldm oldmv) (hn : List.Forall₂ entryRel newm newmv) :
    (oldm.filterMap (fun p => match dictFind newm p.1 with
        | some new_conf => if fieldsDiffer p.2 new_conf then
            some (⟨p.1, p.2, new_conf⟩ : ModEntry) else none
        | none => none)).map ModEntry.id
      = (oldmv.filterMap (fun p => match dictFind newmv p.1 with
        | some new_conf => if fieldsDiffer p.2 new_conf then
            some (⟨p.1, p.2, new_conf⟩ : ModEntry) else none
        | none => none)).map ModEntry.id := by
  induction ho with
  | nil => rfl
  | @cons p q ps qs hpq hrest ih =>
    rcases entryRel_dictFind hn p.1 with ⟨h1, h2⟩ | ⟨v, w, h1, h2, hv⟩
    · have h2q : dictFind newmv q.1 = none := by rw [← hpq.1]; exact h2
      have hfp : (match dictFind newm p.1 with
          | some new_conf => if fieldsDiffer p.2 new_conf then
              some (⟨p.1, p.2, new_conf⟩ : ModEntry) else none
          | none => none) = none := by rw [h1]
      have hfq : (match dictFind newmv q.1 with
          | some new_conf => if fieldsDiffer q.2 new_conf then
              some (⟨q.1, q.2, new_conf⟩ : ModEntry) else none
          | none => none) = none := by rw [h2q]
      simp only [List.filterMap_cons, hfp, hfq]
      exact ih
    · have h2q : dictFind newmv q.1 = some w := by rw [← hpq.1]; exact h2
      have hfd : fieldsDiffer p.2 v = fieldsDiffer q.2 w := fieldsDiffer_congr hpq.2 hv
      by_cases hd : fieldsDiffer p.2 v = true
      · have hd2 : fieldsDiffer q.2 w = true := by rw [← hfd]; exact hd
        have hfp : (match dictFind newm p.1 with
            | some new_conf => if fieldsDiffer p.2 new_conf then
                some (⟨p.1, p.2, new_conf⟩ : ModEntry) else none
            | none => none) = some ⟨p.1, p.2, v⟩ := by
          rw [h1]
          show (if fieldsDiffer p.2 v = true then some (⟨p.1, p.2, v⟩ : ModEntry) else none)
              = some ⟨p.1, p.2, v⟩
          rw [if_pos hd]
        have hfq : (match dictFind newmv q.1 with
            | some new_conf => if fieldsDiffer q.2 new_conf then
                some (⟨q.1, q.2, new_conf⟩ : ModEntry) else none
            | none => none) = some ⟨q.1, q.2, w⟩ := by
          rw [h2q]
          show (if fieldsDiffer q.2 w = true then some (⟨q.1, q.2, w⟩ : ModEntry) else none)
              = some ⟨q.1, q.2, w⟩
          rw [if_pos hd2]
        simp only [List.filterMap_cons, hfp, hfq, List.map_cons]
        simp [hpq.1, ih]
      · have hd2 : ¬ fieldsDiffer q.2 w = true := fun hw => hd (by rw [hfd]; exact hw)
        have hfp : (match dictFind newm p.1 with
            | some new_conf => if fieldsDiffer p.2 new_conf then
                some (⟨p.1, p.2, new_conf⟩ : ModEntry) else none
            | none => none) = none := by
          rw [h1]
          show (if fieldsDiffer p.2 v = true then some (⟨p.1, p.2, v⟩ : ModEntry) else none)
              = none
          rw [if_neg hd]
        have hfq : (match dictFind newmv q.1 with
            | some new_conf => if fieldsDiffer q.2 new_conf then
                some (⟨q.1, q.2, new_conf⟩ : ModEntry) else none
            | none => none) = none := by
          rw [h2q]
          show (if fieldsDiffer q.2 w = true then some (⟨q.1, q.2, w⟩ : ModEntry) else none)
              = none
          rw [if_neg hd2]
        simp only [List.filterMap_cons, hfp, hfq]
        exact ih

/-- C10: the differ is blind to the `name` field — replacing records in
both snapshots by records that agree on `id`, `details`, `parsed_date`,
`location` and `status` but may differ in `name` leaves the id sequences
of `added`, `removed` and `modified` unchanged. -/
theorem compare_name_blind (o n ov nv : List Conference)
    (ho : List.Forall₂ sameExceptName o ov) (hn : List.Forall₂ sameExceptName n nv) :
    addedIds (compare_conferences o n) = addedIds (compare_conferences ov nv)
      ∧ removedIds (compare_conferences o n) = removedIds (compare_conferences ov nv)
      ∧ modifiedIds (compare_conferences o n) = modifiedIds (compare_conferences ov nv) := by
  have hdo := entryRel_toDict ho
  have hdn := entryRel_toDict hn
  have hko := entryRel_keys hdo
  have hkn := entryRel_keys hdn
  refine ⟨?_, ?_, ?_⟩
  · unfold addedIds compare_conferences
    dsimp only
    rw [hko]
    exact entryRel_filter_ids hdn _
  · unfold removedIds compare_conferences
    dsimp only
    rw [hkn]
    exact entryRel_filter_ids hdo _
  · unfold modifiedIds compare_conferences
    dsimp only
    exact entryRel_modified_ids hdo hdn

/-- Witness for C10: renaming the single record of the old snapshot does
not change any of the three id sequences. -/
theorem compare_name_blind_witness :
    addedIds (compare_conferences [scenarioRecA] [])
        = addedIds (compare_conferences [renamedRecA] [])
      ∧ removedIds (compare_conferences [scenarioRecA] [])
        = removedIds (compare_conferences [renamedRecA] [])
      ∧ modifiedIds (compare_conferences [scenarioRecA] [])
        = modifiedIds (compare_conferences [renamedRecA] []) :=
  compare_name_blind [scenarioRecA] [] [renamedRecA] []
    (List.Forall₂.cons ⟨rfl, rfl, rfl, rfl, rfl⟩ List.Forall₂.nil) List.Forall₂.nil

end PgconfWatch
